import Mathlib

/-
Verification of the whiteboard interaction engine of `whiteboard-note`
against its natural-language specification.

The definitions below are a shallow embedding of the TypeScript source:

* `Whiteboard.tsx` — camera (pan / zoom-at-cursor), the gesture handlers
  (item drag, item resize, frame drag, frame resize), z-order bumping
  (`bumpToFront`, `maxZ`) and the frame-membership resolver
  (`findContainingFrameIdForItem`);
* `App.tsx` — the debounced persistence batching queue
  (`scheduleWhiteboardSave` / `flushWhiteboardSaves`);
* `shared/persistence/storage.ts` — `batchUpsertWhiteboardItems`.

JavaScript `number` is modelled by `ℚ`: every operation the claims touch
(addition, subtraction, multiplication, division, `Math.max`, `Math.min`,
comparison) is a field / order operation, exact over the rationals.  The
one transcendental, `Math.pow(1.0015, -e.deltaY)` in the wheel handler, is
abstracted as a `zoomFactor : ℚ` parameter; all theorems quantify over it.
Entity ids are `String`s, pointer ids are `ℕ`.
-/

set_option autoImplicit false

namespace WhiteboardNote

/-- Camera state (`Whiteboard.tsx`): `{ tx, ty, scale }`. -/
structure Camera where
  tx : ℚ
  ty : ℚ
  scale : ℚ
deriving DecidableEq

/-- `WhiteboardItem` from `shared/types.ts`. -/
structure WhiteboardItem where
  id : String
  noteId : String
  x : ℚ
  y : ℚ
  width : ℚ
  height : ℚ
  z : ℚ
deriving DecidableEq

/-- `Frame` from `shared/types.ts`. -/
structure Frame where
  id : String
  name : String
  x : ℚ
  y : ℚ
  width : ℚ
  height : ℚ
  z : ℚ
  updatedAt : ℚ
deriving DecidableEq

/-- `const clamp = (v, min, max) => Math.max(min, Math.min(max, v))`. -/
def clamp (v mn mx : ℚ) : ℚ := max mn (min mx v)

/-- `MIN_W = 320` (`Whiteboard.tsx`). -/
def MIN_W : ℚ := 320

/-- `MIN_H = 220` (`Whiteboard.tsx`). -/
def MIN_H : ℚ := 220

/-- Screen-to-world conversion, as inlined in `handleWheel` and
`handleCanvasDoubleClick`: `world = (screen - translate) / scale`. -/
def screenToWorld (c : Camera) (sx sy : ℚ) : ℚ × ℚ :=
  ((sx - c.tx) / c.scale, (sy - c.ty) / c.scale)

/-- World-to-screen projection (`screen = world * scale + translate`),
the transform applied by the world `<div>`. -/
def worldToScreen (c : Camera) (wx wy : ℚ) : ℚ × ℚ :=
  (wx * c.scale + c.tx, wy * c.scale + c.ty)

/-- The zoom step of `handleWheel` (`Whiteboard.tsx`, lines 547–569).
`mouseX`/`mouseY` are the cursor position relative to the container;
`zoomFactor` stands for `Math.pow(1.0015, -e.deltaY)`.  When the clamped
next scale equals the old scale the handler returns before touching the
camera. -/
def handleWheel (prev : Camera) (mouseX mouseY zoomFactor : ℚ) : Camera :=
  let oldScale := prev.scale
  let nextScale := clamp (oldScale * zoomFactor) (1/4) (5/2)
  if nextScale = oldScale then prev
  else
    let worldX := (mouseX - prev.tx) / oldScale
    let worldY := (mouseY - prev.ty) / oldScale
    { tx := mouseX - worldX * nextScale
      ty := mouseY - worldY * nextScale
      scale := nextScale }

/-- A whole sequence of wheel-zoom events, folded left to right. -/
def zoomSeq (c : Camera) (events : List (ℚ × ℚ × ℚ)) : Camera :=
  events.foldl (fun cam e => handleWheel cam e.1 e.2.1 e.2.2) c

/-- Pan gesture record (`PanState` in `Whiteboard.tsx`). -/
structure PanState where
  pointerId : ℕ
  startPointerX : ℚ
  startPointerY : ℚ
  startTx : ℚ
  startTy : ℚ
deriving DecidableEq

/-- The pan move handler: `applyCamera({ ...prev, tx: pan.startTx + dx,
ty: pan.startTy + dy })` — scale untouched. -/
def handlePanPointerMove (pan : PanState) (prev : Camera) (clientX clientY : ℚ) : Camera :=
  { prev with
    tx := pan.startTx + (clientX - pan.startPointerX)
    ty := pan.startTy + (clientY - pan.startPointerY) }

/-- `maxZ` from `Whiteboard.tsx`: `items.reduce((acc, item) =>
(item.z > acc ? item.z : acc), items[0].z)` with `0` for an empty
collection.  JS `reduce` with an initial value visits every element,
including index 0. -/
def maxZ : List WhiteboardItem → ℚ
  | [] => 0
  | it :: rest => (it :: rest).foldl (fun acc i => if acc < i.z then i.z else acc) it.z

/-- `bumpToFront` from `Whiteboard.tsx`: `nextZ = maxZ + 1; if (item.z ===
nextZ) return; onUpdateItem({ ...item, z: nextZ })`.  `none` models the
early return (no update emitted); `some u` models the emitted update. -/
def bumpToFront (items : List WhiteboardItem) (item : WhiteboardItem) :
    Option WhiteboardItem :=
  let nextZ := maxZ items + 1
  if item.z = nextZ then none
  else some { item with z := nextZ }

/-- `f.width * f.height`, the sort key of the frame resolver. -/
def area (f : Frame) : ℚ := f.width * f.height

/-- The containment test of `findContainingFrameIdForItem`:
`cx >= f.x && cx <= f.x + f.width && cy >= f.y && cy <= f.y + f.height`
(inclusive bounds). -/
def frameContains (f : Frame) (cx cy : ℚ) : Bool :=
  decide (f.x ≤ cx) && decide (cx ≤ f.x + f.width) &&
  decide (f.y ≤ cy) && decide (cy ≤ f.y + f.height)

/-- The head of the candidate list after the stable ascending sort by area:
the first candidate whose area is minimal.  `Array.prototype.sort` with the
comparator `(a, b) => a.area - b.area` is stable, so `candidates[0]` after
sorting is exactly the first element of minimal area, which this fold
computes (a later element replaces the current best only when its area is
strictly smaller). -/
def pickSmallest (c : Frame) (cs : List Frame) : Frame :=
  cs.foldl (fun best f => if area f < area best then f else best) c

/-- `findContainingFrameIdForItem` from `Whiteboard.tsx` (lines 244–254):
filter the frames containing the item's center, return `null` when none,
else the id of the smallest-area candidate. -/
def findContainingFrameIdForItem (frames : List Frame) (item : WhiteboardItem) :
    Option String :=
  let cx := item.x + item.width / 2
  let cy := item.y + item.height / 2
  match frames.filter (fun f => frameContains f cx cy) with
  | [] => none
  | c :: cs => some (pickSmallest c cs).id

/-- The kind of a window pointer event relevant to an active gesture. -/
inductive EventKind
  | move
  | up
  | cancel
deriving DecidableEq

/-- A pointer event as the gesture handlers see it. -/
structure PointerEvent where
  kind : EventKind
  pointerId : ℕ
  clientX : ℚ
  clientY : ℚ
deriving DecidableEq

/-- The side effects a gesture handler can emit through its callbacks:
`onUpdateItem`, `onAssignNoteToFrame`, `onCreateNoteAt`. -/
inductive WbEffect
  | updateItem (item : WhiteboardItem)
  | assignNoteToFrame (noteId : String) (frameId : Option String)
  | createNoteAt (x y : ℚ)
deriving DecidableEq

/-- `DragState` from `Whiteboard.tsx`: start pointer position and start
geometry, recorded at gesture start. -/
structure DragState where
  itemId : String
  pointerId : ℕ
  startPointerX : ℚ
  startPointerY : ℚ
  startX : ℚ
  startY : ℚ
deriving DecidableEq

/-- The position a drag move computes for the item: `start + (current -
startPointer) / scale` — world-space delta from the recorded start, never
an incremental delta. -/
def dragPosition (drag : DragState) (scale : ℚ) (clientX clientY : ℚ) : ℚ × ℚ :=
  (drag.startX + (clientX - drag.startPointerX) / scale,
   drag.startY + (clientY - drag.startPointerY) / scale)

/-- The drag effect's `handlePointerMove` (`Whiteboard.tsx`, lines 259–277):
ignore foreign pointers, become a no-op when the item vanished, otherwise
emit `onUpdateItem({ ...item, x: startX + dxWorld, y: startY + dyWorld })`. -/
def handleDragPointerMove (drag : DragState) (items : List WhiteboardItem)
    (scale : ℚ) (e : PointerEvent) : List WbEffect :=
  if e.pointerId ≠ drag.pointerId then []
  else
    match items.find? (fun i => i.id == drag.itemId) with
    | none => []
    | some item =>
      [WbEffect.updateItem
        { item with
          x := (dragPosition drag scale e.clientX e.clientY).1
          y := (dragPosition drag scale e.clientX e.clientY).2 }]

/-- The drag effect's `handlePointerUp` (`Whiteboard.tsx`, lines 279–290):
on the owning pointer, resolve frame membership for the dragged item, emit
`onAssignNoteToFrame`, and clear the drag state (`setDrag(null)`).  The
returned `Bool` is `true` when the gesture terminated. -/
def handleDragPointerUp (drag : DragState) (items : List WhiteboardItem)
    (frames : List Frame) (e : PointerEvent) : List WbEffect × Bool :=
  if e.pointerId ≠ drag.pointerId then ([], false)
  else
    match items.find? (fun i => i.id == drag.itemId) with
    | none => ([], true)
    | some item =>
      ([WbEffect.assignNoteToFrame item.noteId (findContainingFrameIdForItem frames item)],
       true)

/-- How the drag effect wires window listeners (`Whiteboard.tsx`, lines
292–294): `pointermove → handlePointerMove`, `pointerup → handlePointerUp`,
`pointercancel → handlePointerUp` — cancel and up share one handler. -/
def dragDispatch (drag : DragState) (items : List WhiteboardItem)
    (frames : List Frame) (scale : ℚ) (e : PointerEvent) : List WbEffect × Bool :=
  match e.kind with
  | EventKind.move => (handleDragPointerMove drag items scale e, false)
  | EventKind.up => handleDragPointerUp drag items frames e
  | EventKind.cancel => handleDragPointerUp drag items frames e

/-- The eight resize handles: `'n' | 's' | 'e' | 'w' | 'ne' | 'nw' | 'se' | 'sw'`. -/
inductive ResizeDir
  | n
  | s
  | e
  | w
  | ne
  | nw
  | se
  | sw
deriving DecidableEq

/-- `dir.includes('e')`. -/
def ResizeDir.hasE : ResizeDir → Bool
  | ResizeDir.e => true
  | ResizeDir.ne => true
  | ResizeDir.se => true
  | _ => false

/-- `dir.includes('w')`. -/
def ResizeDir.hasW : ResizeDir → Bool
  | ResizeDir.w => true
  | ResizeDir.nw => true
  | ResizeDir.sw => true
  | _ => false

/-- `dir.includes('n')`. -/
def ResizeDir.hasN : ResizeDir → Bool
  | ResizeDir.n => true
  | ResizeDir.ne => true
  | ResizeDir.nw => true
  | _ => false

/-- `dir.includes('s')`. -/
def ResizeDir.hasS : ResizeDir → Bool
  | ResizeDir.s => true
  | ResizeDir.se => true
  | ResizeDir.sw => true
  | _ => false

/-- `ResizeState` from `Whiteboard.tsx`: direction plus the start pointer
position and start rectangle. -/
structure ResizeState where
  itemId : String
  pointerId : ℕ
  dir : ResizeDir
  startPointerX : ℚ
  startPointerY : ℚ
  startX : ℚ
  startY : ℚ
  startW : ℚ
  startH : ℚ
deriving DecidableEq

/-- A geometry rectangle `{ x, y, width, height }`. -/
structure Geom where
  x : ℚ
  y : ℚ
  width : ℚ
  height : ℚ
deriving DecidableEq

/-- The geometry computation shared by the item-resize and frame-resize
move handlers (`Whiteboard.tsx`, lines 360–387 and 431–458), as a function
of the world-space deltas.  Each branch mirrors one `dir.includes(...)`
block of the source. -/
def resizeGeometry (rs : ResizeState) (dxWorld dyWorld : ℚ) : Geom :=
  let nextW0 := if rs.dir.hasE then max MIN_W (rs.startW + dxWorld) else rs.startW
  let nextH0 := if rs.dir.hasS then max MIN_H (rs.startH + dyWorld) else rs.startH
  let nextW := if rs.dir.hasW then max MIN_W (rs.startW - dxWorld) else nextW0
  let nextX := if rs.dir.hasW then rs.startX + (rs.startW - max MIN_W (rs.startW - dxWorld))
               else rs.startX
  let nextH := if rs.dir.hasN then max MIN_H (rs.startH - dyWorld) else nextH0
  let nextY := if rs.dir.hasN then rs.startY + (rs.startH - max MIN_H (rs.startH - dyWorld))
               else rs.startY
  { x := nextX, y := nextY, width := nextW, height := nextH }

/-- The resize effect's `handlePointerMove` (`Whiteboard.tsx`, lines
347–396): ignore foreign pointers, no-op when the item vanished, otherwise
emit `onUpdateItem({ ...item, x, y, width, height })` computed from the
start rectangle and the scale-corrected pointer delta. -/
def handleResizePointerMove (rs : ResizeState) (items : List WhiteboardItem)
    (scale : ℚ) (e : PointerEvent) : List WbEffect :=
  if e.pointerId ≠ rs.pointerId then []
  else
    match items.find? (fun i => i.id == rs.itemId) with
    | none => []
    | some item =>
      let g := resizeGeometry rs ((e.clientX - rs.startPointerX) / scale)
                 ((e.clientY - rs.startPointerY) / scale)
      [WbEffect.updateItem
        { item with x := g.x, y := g.y, width := g.width, height := g.height }]

/-- The resize effect's `handlePointerUp` (`Whiteboard.tsx`, lines 398–402):
on the owning pointer it only clears the gesture (`setResize(null)`) — no
effect is emitted. -/
def handleResizePointerUp (rs : ResizeState) (e : PointerEvent) :
    List WbEffect × Bool :=
  if e.pointerId ≠ rs.pointerId then ([], false) else ([], true)

/-- The resize effect's listener wiring (`Whiteboard.tsx`, lines 404–406):
`pointercancel` is registered to the same `handlePointerUp`. -/
def resizeDispatch (rs : ResizeState) (items : List WhiteboardItem)
    (scale : ℚ) (e : PointerEvent) : List WbEffect × Bool :=
  match e.kind with
  | EventKind.move => (handleResizePointerMove rs items scale e, false)
  | EventKind.up => handleResizePointerUp rs e
  | EventKind.cancel => handleResizePointerUp rs e

/-- The item position after a sequence of drag move events, each delivered
at an absolute pointer position: every move recomputes from the recorded
start state, so the fold simply replaces the current position. -/
def applyDragMoves (drag : DragState) (scale : ℚ) (g0 : ℚ × ℚ)
    (moves : List (ℚ × ℚ)) : ℚ × ℚ :=
  moves.foldl (fun _ p => dragPosition drag scale p.1 p.2) g0

/-- The item rectangle after a sequence of resize move events, each
delivered at an absolute pointer position. -/
def applyResizeMoves (rs : ResizeState) (scale : ℚ) (g0 : Geom)
    (moves : List (ℚ × ℚ)) : Geom :=
  moves.foldl
    (fun _ p =>
      resizeGeometry rs ((p.1 - rs.startPointerX) / scale)
        ((p.2 - rs.startPointerY) / scale))
    g0

/-- The pending-write slots of the persistence queue: a JS
`Map<string, WhiteboardItem>` modelled as an association list in insertion
order (`Map.set` overwrites the value of an existing key in place, else
appends), plus the debounce-timer handle (`whiteboardSaveTimerRef`)
collapsed to "a timer is active". -/
structure SaveQueue where
  pending : List (String × WhiteboardItem)
  timerActive : Bool
deriving DecidableEq

/-- The queue at mount: no pending writes, no timer. -/
def emptyQueue : SaveQueue := { pending := [], timerActive := false }

/-- `Map.set` on the insertion-ordered association list. -/
def mapSet (m : List (String × WhiteboardItem)) (k : String) (v : WhiteboardItem) :
    List (String × WhiteboardItem) :=
  if m.any (fun p => p.1 == k) then m.map (fun p => if p.1 == k then (k, v) else p)
  else m ++ [(k, v)]

/-- `scheduleWhiteboardSave` (`App.tsx`, lines 143–150): overwrite the
pending slot keyed by `item.id`; start the 250 ms flush timer only when
none is active.  The returned `Bool` is `true` when a timer was started. -/
def scheduleWhiteboardSave (q : SaveQueue) (item : WhiteboardItem) :
    SaveQueue × Bool :=
  let pending := mapSet q.pending item.id item
  if q.timerActive then ({ pending := pending, timerActive := true }, false)
  else ({ pending := pending, timerActive := true }, true)

/-- A sequence of `scheduleWhiteboardSave` calls. -/
def enqueueAll (q : SaveQueue) (items : List WhiteboardItem) : SaveQueue :=
  items.foldl (fun acc i => (scheduleWhiteboardSave acc i).1) q

/-- `flushWhiteboardSaves` (`App.tsx`, lines 128–141): clear the timer; if
no board is active, drop every pending slot and issue no write; otherwise
drain all pending values into a single `batchUpsertWhiteboardItems` call.
The second component lists the `batchUpsertWhiteboardItems(boardId, …)`
calls issued. -/
def flushWhiteboardSaves (q : SaveQueue) (activeBoardId : Option String) :
    SaveQueue × List (String × List WhiteboardItem) :=
  match activeBoardId with
  | none => ({ pending := [], timerActive := false }, [])
  | some boardId =>
    ({ pending := [], timerActive := false },
     [(boardId, q.pending.map Prod.snd)])

/-- `batchUpsertWhiteboardItems` (`storage.ts`, lines 284–301): replace
stored items in place by id, append unknown ids, early return on an empty
update list.  (The source keeps an id → index map over the stored array;
for a store whose ids are distinct — the store is keyed by id — updating
the entry at that index is the same as mapping over the list.) -/
def batchUpsertWhiteboardItems (stored : List WhiteboardItem)
    (updates : List WhiteboardItem) : List WhiteboardItem :=
  if updates.isEmpty then stored
  else
    updates.foldl
      (fun acc item =>
        if acc.any (fun i => i.id == item.id) then
          acc.map (fun i => if i.id == item.id then item else i)
        else acc ++ [item])
      stored

/-! ### Helper lemmas -/

lemma le_clamp (v mn mx : ℚ) : mn ≤ clamp v mn mx :=
  le_max_left _ _

lemma clamp_le (v mn mx : ℚ) (h : mn ≤ mx) : clamp v mn mx ≤ mx :=
  max_le h (min_le_left _ _)

lemma handleWheel_scale_bounds (c : Camera) (mx my f : ℚ)
    (hlo : 1/4 ≤ c.scale) (hhi : c.scale ≤ 5/2) :
    1/4 ≤ (handleWheel c mx my f).scale ∧ (handleWheel c mx my f).scale ≤ 5/2 := by
  simp only [handleWheel]
  split
  · exact ⟨hlo, hhi⟩
  · exact ⟨le_clamp _ _ _, clamp_le _ _ _ (by norm_num)⟩

lemma zoomSeq_scale_bounds (events : List (ℚ × ℚ × ℚ)) (c : Camera)
    (hlo : 1/4 ≤ c.scale) (hhi : c.scale ≤ 5/2) :
    1/4 ≤ (zoomSeq c events).scale ∧ (zoomSeq c events).scale ≤ 5/2 := by
  induction events generalizing c with
  | nil => exact ⟨hlo, hhi⟩
  | cons e rest ih =>
    have h := handleWheel_scale_bounds c e.1 e.2.1 e.2.2 hlo hhi
    simpa only [zoomSeq, List.foldl_cons] using ih (handleWheel c e.1 e.2.1 e.2.2) h.1 h.2

/-! ### Concrete example data, used by witnesses and counterexamples -/

/-- An example camera (the initial camera has `scale = 1`). -/
def camEx : Camera := { tx := 0, ty := 0, scale := 1 }

/-- An example item; its center is `(310, 260)`. -/
def itemEx : WhiteboardItem :=
  { id := "i1", noteId := "n1", x := 150, y := 150, width := 320, height := 220, z := 0 }

/-- A large frame `A` covering `[0, 1000] × [0, 1000]`. -/
def frameA : Frame :=
  { id := "A", name := "A", x := 0, y := 0, width := 1000, height := 1000, z := 0,
    updatedAt := 0 }

/-- A smaller frame `B` covering `[100, 500] × [100, 500]`, fully inside `A`. -/
def frameB : Frame :=
  { id := "B", name := "B", x := 100, y := 100, width := 400, height := 400, z := 0,
    updatedAt := 0 }

/-- A one-item collection whose only member is topmost by construction. -/
def itemA : WhiteboardItem :=
  { id := "a", noteId := "n", x := 0, y := 0, width := 320, height := 220, z := 0 }

/-- An in-flight drag of `itemEx` by pointer 1. -/
def dragEx : DragState :=
  { itemId := "i1", pointerId := 1, startPointerX := 0, startPointerY := 0,
    startX := 150, startY := 150 }

/-! ### Claims -/

/-- **C1** — Zoom cursor stability: for every camera state with scale in
`[0.25, 2.5]`, every cursor position `(cursorX, cursorY)` and every zoom
factor (standing for `1.0015 ^ (-deltaY)`) whose clamped next scale
differs from the old scale, applying the wheel-zoom operator yields a
camera under which the world point that was under the cursor before the
zoom maps back to exactly the same screen point:
`worldToScreen (screenToWorld cursor pre) post = cursor`.  Over `ℚ` the
identity is exact, hence in particular within floating-point tolerance. -/
theorem zoom_cursor_stability (c : Camera) (cursorX cursorY zoomFactor : ℚ)
    (hlo : 1/4 ≤ c.scale) (hhi : c.scale ≤ 5/2)
    (hchange : clamp (c.scale * zoomFactor) (1/4) (5/2) ≠ c.scale) :
    worldToScreen (handleWheel c cursorX cursorY zoomFactor)
        (screenToWorld c cursorX cursorY).1 (screenToWorld c cursorX cursorY).2
      = (cursorX, cursorY) := by
  simp only [handleWheel]
  rw [if_neg hchange]
  simp only [worldToScreen, screenToWorld]
  rw [Prod.mk.injEq]
  constructor <;> ring

/-- **C1 witness**: the invariant at the concrete camera `(0, 0, scale 1)`,
cursor `(100, 50)` and zoom factor `2`. -/
theorem zoom_cursor_stability_witness :
    worldToScreen (handleWheel camEx 100 50 2)
        (screenToWorld camEx 100 50).1 (screenToWorld camEx 100 50).2
      = (100, 50) :=
  zoom_cursor_stability camEx 100 50 2 (by norm_num [camEx]) (by norm_num [camEx])
    (by norm_num [camEx, clamp])

/-- **C8** — Scale clamp invariant: starting from any camera with scale in
`[0.25, 2.5]`, any sequence of wheel-zoom events of arbitrary zoom factor
leaves the scale in `[0.25, 2.5]`; a zoom event whose clamped next scale
equals the current scale is a saturating no-op leaving the entire camera
state unchanged; and pan moves never touch the scale (so every reachable
camera state keeps the invariant). -/
theorem scale_clamp_invariant (c : Camera) (events : List (ℚ × ℚ × ℚ))
    (hlo : 1/4 ≤ c.scale) (hhi : c.scale ≤ 5/2) :
    (1/4 ≤ (zoomSeq c events).scale ∧ (zoomSeq c events).scale ≤ 5/2) ∧
    (∀ mouseX mouseY zoomFactor : ℚ,
        clamp (c.scale * zoomFactor) (1/4) (5/2) = c.scale →
        handleWheel c mouseX mouseY zoomFactor = c) ∧
    (∀ pan : PanState, ∀ clientX clientY : ℚ,
        (handlePanPointerMove pan c clientX clientY).scale = c.scale) := by
  refine ⟨zoomSeq_scale_bounds events c hlo hhi, ?_, ?_⟩
  · intro mouseX mouseY zoomFactor h
    simp only [handleWheel]
    rw [if_pos h]
  · intro pan clientX clientY
    rfl

/-- **C8 witness**: the invariant at the initial camera and a concrete
two-event zoom sequence (a hard zoom-in then a hard zoom-out). -/
theorem scale_clamp_invariant_witness :
    (1/4 ≤ (zoomSeq camEx [(0, 0, 100), (0, 0, 1/100)]).scale ∧
      (zoomSeq camEx [(0, 0, 100), (0, 0, 1/100)]).scale ≤ 5/2) ∧
    (∀ mouseX mouseY zoomFactor : ℚ,
        clamp (camEx.scale * zoomFactor) (1/4) (5/2) = camEx.scale →
        handleWheel camEx mouseX mouseY zoomFactor = camEx) ∧
    (∀ pan : PanState, ∀ clientX clientY : ℚ,
        (handlePanPointerMove pan camEx clientX clientY).scale = camEx.scale) :=
  scale_clamp_invariant camEx [(0, 0, 100), (0, 0, 1/100)]
    (by norm_num [camEx]) (by norm_num [camEx])

lemma pickSmallest_mem (c : Frame) (cs : List Frame) : pickSmallest c cs ∈ c :: cs := by
  induction cs generalizing c with
  | nil => simp [pickSmallest]
  | cons f fs ih =>
    have h := ih (if area f < area c then f else c)
    simp only [pickSmallest, List.foldl_cons] at h ⊢
    rcases List.mem_cons.mp h with h1 | h1
    · rw [h1]
      split
      · exact List.mem_cons_of_mem _ (List.mem_cons_self _ _)
      · exact List.mem_cons_self _ _
    · exact List.mem_cons_of_mem _ (List.mem_cons_of_mem _ h1)

lemma pickSmallest_areaLe (c : Frame) (cs : List Frame) :
    ∀ g ∈ c :: cs, area (pickSmallest c cs) ≤ area g := by
  induction cs generalizing c with
  | nil =>
    intro g hg
    rw [List.mem_singleton.mp hg]
    simp [pickSmallest]
  | cons f fs ih =>
    intro g hg
    have key := ih (if area f < area c then f else c)
    have hle : area (if area f < area c then f else c) ≤ area c ∧
        area (if area f < area c then f else c) ≤ area f := by
      split
      · exact ⟨le_of_lt (by assumption), le_refl _⟩
      · exact ⟨le_refl _, le_of_not_lt (by assumption)⟩
    simp only [pickSmallest, List.foldl_cons] at key ⊢
    rcases List.mem_cons.mp hg with h1 | h1
    · rw [h1]
      exact le_trans (key _ (List.mem_cons_self _ _)) hle.1
    · rcases List.mem_cons.mp h1 with h2 | h2
      · rw [h2]
        exact le_trans (key _ (List.mem_cons_self _ _)) hle.2
      · exact key _ (List.mem_cons_of_mem _ h2)

lemma findContainingFrameIdForItem_eq (frames : List Frame) (item : WhiteboardItem) :
    findContainingFrameIdForItem frames item =
      match frames.filter (fun f =>
          frameContains f (item.x + item.width / 2) (item.y + item.height / 2)) with
      | [] => none
      | c :: cs => some (pickSmallest c cs).id := rfl

/-- **C2** — the claim says `bringToFront` is a no-op when the entity is
already topmost (`entity.z = max z`), with no z inflation on repeated
calls.  The source's guard is `if (item.z === maxZ + 1) return`, which no
member of the collection can satisfy (every member's `z` is at most
`maxZ`), so the embedded `bumpToFront` emits an update even for an
already-topmost item: on a singleton collection whose item has
`z = maxZ = 0`, a call emits `z = 1`, and a second call on the updated
state emits `z = 2` — z inflates on every repeated call. -/
theorem bumpToFront_topmost_emits_update :
    maxZ [itemA] = itemA.z ∧
    bumpToFront [itemA] itemA = some { itemA with z := 1 } ∧
    bumpToFront [{ itemA with z := 1 }] { itemA with z := 1 }
      = some { itemA with z := 2 } := by
  refine ⟨rfl, ?_, ?_⟩ <;>
    · simp only [bumpToFront, maxZ, List.foldl_cons, List.foldl_nil, itemA]
      norm_num

/-- **C4** — Frame membership resolution: the resolver computes the item
center `(x + width/2, y + height/2)` and (1) returns `none` exactly when
no frame contains it (inclusive bounds); (2) whenever it returns an id,
that id belongs to a frame of the collection that contains the center and
whose area is minimal among all containing frames; (3) when exactly one
frame contains the center it returns that frame's id; (4) for two frames
`A` and `B` both containing the center with `area B < area A` (e.g. `B`
nested inside `A`), the resolver on `[A, B]` returns `B`'s id. -/
theorem frame_membership_resolution (frames : List Frame) (item : WhiteboardItem) :
    (findContainingFrameIdForItem frames item = none ↔
      ∀ f ∈ frames,
        frameContains f (item.x + item.width / 2) (item.y + item.height / 2) = false) ∧
    (∀ fid, findContainingFrameIdForItem frames item = some fid →
      ∃ f ∈ frames, f.id = fid ∧
        frameContains f (item.x + item.width / 2) (item.y + item.height / 2) = true ∧
        ∀ g ∈ frames,
          frameContains g (item.x + item.width / 2) (item.y + item.height / 2) = true →
            area f ≤ area g) ∧
    (∀ f : Frame,
      frames.filter
          (fun g => frameContains g (item.x + item.width / 2) (item.y + item.height / 2))
        = [f] →
      findContainingFrameIdForItem frames item = some f.id) ∧
    (∀ A B : Frame,
      frameContains A (item.x + item.width / 2) (item.y + item.height / 2) = true →
      frameContains B (item.x + item.width / 2) (item.y + item.height / 2) = true →
      area B < area A →
      findContainingFrameIdForItem [A, B] item = some B.id) := by
  have hnone : findContainingFrameIdForItem frames item = none ↔
      frames.filter (fun f =>
        frameContains f (item.x + item.width / 2) (item.y + item.height / 2)) = [] := by
    rw [findContainingFrameIdForItem_eq]
    cases hfil : frames.filter (fun f =>
        frameContains f (item.x + item.width / 2) (item.y + item.height / 2)) with
    | nil => simp
    | cons c cs => simp
  refine ⟨?_, ?_, ?_, ?_⟩
  · rw [hnone, List.filter_eq_nil_iff]
    constructor
    · intro h f hf
      have := h f hf
      simpa using this
    · intro h f hf
      simp [h f hf]
  · intro fid hfid
    rw [findContainingFrameIdForItem_eq] at hfid
    cases hfil : frames.filter (fun f =>
        frameContains f (item.x + item.width / 2) (item.y + item.height / 2)) with
    | nil => rw [hfil] at hfid; exact absurd hfid (by simp)
    | cons c cs =>
      rw [hfil] at hfid
      simp only [Option.some.injEq] at hfid
      have hmemfil : pickSmallest c cs ∈ frames.filter (fun f =>
          frameContains f (item.x + item.width / 2) (item.y + item.height / 2)) := by
        rw [hfil]; exact pickSmallest_mem c cs
      have hmem := List.mem_filter.mp hmemfil
      refine ⟨pickSmallest c cs, hmem.1, hfid, hmem.2, ?_⟩
      intro g hg hpg
      have : g ∈ frames.filter (fun f =>
          frameContains f (item.x + item.width / 2) (item.y + item.height / 2)) :=
        List.mem_filter.mpr ⟨hg, hpg⟩
      rw [hfil] at this
      exact pickSmallest_areaLe c cs g this
  · intro f hf
    rw [findContainingFrameIdForItem_eq, hf]
    simp [pickSmallest]
  · intro A B hA hB hlt
    rw [findContainingFrameIdForItem_eq]
    simp [List.filter_cons, hA, hB, pickSmallest, hlt]

/-- **C4 witness**: the nested-frames tie-break at concrete data — `itemEx`
has its center `(310, 260)` inside both `frameA` (area 10⁶) and `frameB`
(area 1.6·10⁵, fully inside `A`), and the resolver picks `B`. -/
theorem frame_membership_resolution_witness :
    findContainingFrameIdForItem [frameA, frameB] itemEx = some "B" :=
  (frame_membership_resolution [] itemEx).2.2.2 frameA frameB
    (by simp only [frameContains, frameA, itemEx, Bool.and_eq_true, decide_eq_true_eq]
        norm_num)
    (by simp only [frameContains, frameB, itemEx, Bool.and_eq_true, decide_eq_true_eq]
        norm_num)
    (by norm_num [area, frameA, frameB])

lemma handleDragPointerUp_effects (drag : DragState) (items : List WhiteboardItem)
    (frames : List Frame) (e : PointerEvent) :
    (handleDragPointerUp drag items frames e).1 = [] ∨
    ∃ item, items.find? (fun i => i.id == drag.itemId) = some item ∧
      (handleDragPointerUp drag items frames e).1
        = [WbEffect.assignNoteToFrame item.noteId
            (findContainingFrameIdForItem frames item)] := by
  unfold handleDragPointerUp
  split
  · exact Or.inl rfl
  · cases h : items.find? (fun i => i.id == drag.itemId) with
    | none => exact Or.inl rfl
    | some item => exact Or.inr ⟨item, rfl, rfl⟩

lemma handleResizePointerUp_effects (rs : ResizeState) (e : PointerEvent) :
    (handleResizePointerUp rs e).1 = [] := by
  unfold handleResizePointerUp
  split <;> rfl

lemma frameContains_frameB_itemEx :
    frameContains frameB (itemEx.x + itemEx.width / 2) (itemEx.y + itemEx.height / 2)
      = true := by
  simp only [frameContains, frameB, itemEx, Bool.and_eq_true, decide_eq_true_eq]
  norm_num

/-- **C3 counterexample** — the claim says a pointer-cancel never triggers
the drag-end frame-membership assignment.  But the drag effect registers
the very same `handlePointerUp` for `pointerup` and `pointercancel`, and
that handler performs the frame-membership resolution and emits
`onAssignNoteToFrame`: cancelling an in-flight drag of `itemEx` (whose
center lies in `frameB`) emits the frame-assignment commit. -/
theorem pointer_cancel_emits_frame_assignment :
    (dragDispatch dragEx [itemEx] [frameB] 1
        { kind := EventKind.cancel, pointerId := 1, clientX := 200, clientY := 200 }).1
      = [WbEffect.assignNoteToFrame "n1" (some "B")] := by
  have hfil : [frameB].filter (fun f =>
      frameContains f (itemEx.x + itemEx.width / 2) (itemEx.y + itemEx.height / 2))
      = [frameB] := by
    simp [List.filter_cons, frameContains_frameB_itemEx]
  have hres : findContainingFrameIdForItem [frameB] itemEx = some "B" := by
    rw [findContainingFrameIdForItem_eq, hfil]
    simp [pickSmallest, frameB]
  have hfind : List.find? (fun i => i.id == dragEx.itemId) [itemEx] = some itemEx :=
    List.find?_cons_of_pos _ (by simp [dragEx, itemEx])
  show (handleDragPointerUp dragEx [itemEx] [frameB] _).1 = _
  unfold handleDragPointerUp
  rw [if_neg (by simp [dragEx]), hfind]
  show [WbEffect.assignNoteToFrame itemEx.noteId (findContainingFrameIdForItem [frameB] itemEx)]
      = [WbEffect.assignNoteToFrame "n1" (some "B")]
  rw [hres]
  rfl

/-- **C3 (amended)** — pointer-cancel is dispatched to the very same
handler as pointer-up and terminates the gesture identically; for item
drags this *includes* the one-shot frame-membership assignment side
effect (exactly as on pointer-up).  It never triggers note creation, and
it emits no geometry update on termination — the last-applied geometry is
kept, with no rollback to the gesture-start state. -/
theorem pointer_cancel_identical_to_pointer_up (drag : DragState) (rs : ResizeState)
    (items : List WhiteboardItem) (frames : List Frame) (scale : ℚ)
    (pid : ℕ) (cx cy : ℚ) :
    dragDispatch drag items frames scale
        { kind := EventKind.cancel, pointerId := pid, clientX := cx, clientY := cy }
      = dragDispatch drag items frames scale
        { kind := EventKind.up, pointerId := pid, clientX := cx, clientY := cy } ∧
    resizeDispatch rs items scale
        { kind := EventKind.cancel, pointerId := pid, clientX := cx, clientY := cy }
      = resizeDispatch rs items scale
        { kind := EventKind.up, pointerId := pid, clientX := cx, clientY := cy } ∧
    (∀ x y : ℚ, WbEffect.createNoteAt x y ∉
      (dragDispatch drag items frames scale
        { kind := EventKind.cancel, pointerId := pid, clientX := cx, clientY := cy }).1) ∧
    (∀ u : WhiteboardItem, WbEffect.updateItem u ∉
      (dragDispatch drag items frames scale
        { kind := EventKind.cancel, pointerId := pid, clientX := cx, clientY := cy }).1) ∧
    (∀ x y : ℚ, WbEffect.createNoteAt x y ∉
      (resizeDispatch rs items scale
        { kind := EventKind.cancel, pointerId := pid, clientX := cx, clientY := cy }).1) ∧
    (∀ u : WhiteboardItem, WbEffect.updateItem u ∉
      (resizeDispatch rs items scale
        { kind := EventKind.cancel, pointerId := pid, clientX := cx, clientY := cy }).1) := by
  refine ⟨rfl, rfl, ?_, ?_, ?_, ?_⟩
  · intro x y h
    rcases handleDragPointerUp_effects drag items frames
        { kind := EventKind.cancel, pointerId := pid, clientX := cx, clientY := cy } with
      heff | ⟨item, _, heff⟩ <;>
    · rw [show (dragDispatch drag items frames scale
          { kind := EventKind.cancel, pointerId := pid, clientX := cx, clientY := cy }).1
          = (handleDragPointerUp drag items frames
          { kind := EventKind.cancel, pointerId := pid, clientX := cx, clientY := cy }).1
          from rfl, heff] at h
      simp at h
  · intro u h
    rcases handleDragPointerUp_effects drag items frames
        { kind := EventKind.cancel, pointerId := pid, clientX := cx, clientY := cy } with
      heff | ⟨item, _, heff⟩ <;>
    · rw [show (dragDispatch drag items frames scale
          { kind := EventKind.cancel, pointerId := pid, clientX := cx, clientY := cy }).1
          = (handleDragPointerUp drag items frames
          { kind := EventKind.cancel, pointerId := pid, clientX := cx, clientY := cy }).1
          from rfl, heff] at h
      simp at h
  · intro x y h
    rw [show (resizeDispatch rs items scale
        { kind := EventKind.cancel, pointerId := pid, clientX := cx, clientY := cy }).1
        = (handleResizePointerUp rs
        { kind := EventKind.cancel, pointerId := pid, clientX := cx, clientY := cy }).1
        from rfl, handleResizePointerUp_effects] at h
    simp at h
  · intro u h
    rw [show (resizeDispatch rs items scale
        { kind := EventKind.cancel, pointerId := pid, clientX := cx, clientY := cy }).1
        = (handleResizePointerUp rs
        { kind := EventKind.cancel, pointerId := pid, clientX := cx, clientY := cy }).1
        from rfl, handleResizePointerUp_effects] at h
    simp at h

/-- An in-flight west-handle resize with a `400 × 300` start rectangle. -/
def resizeEx : ResizeState :=
  { itemId := "i1", pointerId := 1, dir := ResizeDir.w, startPointerX := 0,
    startPointerY := 0, startX := 10, startY := 20, startW := 400, startH := 300 }

/-- **C5** — Resize clamping and anchoring: for every resize gesture whose
start rectangle respects the minima (every entity does) and every
world-space move delta, the resulting width is ≥ 320 and height ≥ 220;
for a `w` handle `width = max(MIN_W, startW − dxWorld)` and
`x = startX + (startW − width)`, so the right edge `x + width` stays at
`startX + startW`; the edge opposite the dragged handle never moves
(symmetrically for `n`, and `x`/`y`/`width`/`height` are untouched on the
axes the handle does not drag); and processing any sequence of move events
leaves exactly the geometry of the last one, since every move recomputes
from the recorded start rectangle — clamping silently absorbs drag past
the minimum instead of erroring. -/
theorem resize_clamping_and_anchoring (rs : ResizeState) (dxWorld dyWorld : ℚ)
    (hW : MIN_W ≤ rs.startW) (hH : MIN_H ≤ rs.startH) :
    MIN_W ≤ (resizeGeometry rs dxWorld dyWorld).width ∧
    MIN_H ≤ (resizeGeometry rs dxWorld dyWorld).height ∧
    (rs.dir.hasW = true →
      (resizeGeometry rs dxWorld dyWorld).width = max MIN_W (rs.startW - dxWorld) ∧
      (resizeGeometry rs dxWorld dyWorld).x
        = rs.startX + (rs.startW - (resizeGeometry rs dxWorld dyWorld).width) ∧
      (resizeGeometry rs dxWorld dyWorld).x + (resizeGeometry rs dxWorld dyWorld).width
        = rs.startX + rs.startW) ∧
    (rs.dir.hasW = false → (resizeGeometry rs dxWorld dyWorld).x = rs.startX) ∧
    (rs.dir.hasN = true →
      (resizeGeometry rs dxWorld dyWorld).y + (resizeGeometry rs dxWorld dyWorld).height
        = rs.startY + rs.startH) ∧
    (rs.dir.hasN = false → (resizeGeometry rs dxWorld dyWorld).y = rs.startY) ∧
    (rs.dir.hasE = false → rs.dir.hasW = false →
      (resizeGeometry rs dxWorld dyWorld).width = rs.startW) ∧
    (rs.dir.hasS = false → rs.dir.hasN = false →
      (resizeGeometry rs dxWorld dyWorld).height = rs.startH) ∧
    (∀ (g0 : Geom) (moves : List (ℚ × ℚ)) (p : ℚ × ℚ) (scale : ℚ),
      applyResizeMoves rs scale g0 (moves ++ [p])
        = resizeGeometry rs ((p.1 - rs.startPointerX) / scale)
            ((p.2 - rs.startPointerY) / scale)) := by
  refine ⟨?_, ?_, ?_, ?_, ?_, ?_, ?_, ?_, ?_⟩
  · cases hw : rs.dir.hasW with
    | true => simp [resizeGeometry, hw, le_max_left]
    | false =>
      cases he : rs.dir.hasE with
      | true => simp [resizeGeometry, hw, he, le_max_left]
      | false => simpa [resizeGeometry, hw, he] using hW
  · cases hn : rs.dir.hasN with
    | true => simp [resizeGeometry, hn, le_max_left]
    | false =>
      cases hs : rs.dir.hasS with
      | true => simp [resizeGeometry, hn, hs, le_max_left]
      | false => simpa [resizeGeometry, hn, hs] using hH
  · intro hw
    refine ⟨by simp [resizeGeometry, hw], by simp [resizeGeometry, hw], ?_⟩
    simp only [resizeGeometry, hw, if_true]
    ring
  · intro hw
    simp [resizeGeometry, hw]
  · intro hn
    simp only [resizeGeometry, hn, if_true]
    ring
  · intro hn
    simp [resizeGeometry, hn]
  · intro he hw
    simp [resizeGeometry, he, hw]
  · intro hs hn
    simp [resizeGeometry, hs, hn]
  · intro g0 moves p scale
    simp [applyResizeMoves, List.foldl_append]

/-- **C5 witness**: the `w`-handle resize `resizeEx` (start `400 × 300` at
`(10, 20)`) under an inward world-space drag of `(300, 50)`: the width
clamps to 320, the height stays 300, and the right edge stays at 410. -/
theorem resize_clamping_and_anchoring_witness :
    MIN_W ≤ (resizeGeometry resizeEx 300 50).width ∧
    MIN_H ≤ (resizeGeometry resizeEx 300 50).height ∧
    (resizeEx.dir.hasW = true →
      (resizeGeometry resizeEx 300 50).width = max MIN_W (resizeEx.startW - 300) ∧
      (resizeGeometry resizeEx 300 50).x
        = resizeEx.startX + (resizeEx.startW - (resizeGeometry resizeEx 300 50).width) ∧
      (resizeGeometry resizeEx 300 50).x + (resizeGeometry resizeEx 300 50).width
        = resizeEx.startX + resizeEx.startW) ∧
    (resizeEx.dir.hasW = false → (resizeGeometry resizeEx 300 50).x = resizeEx.startX) ∧
    (resizeEx.dir.hasN = true →
      (resizeGeometry resizeEx 300 50).y + (resizeGeometry resizeEx 300 50).height
        = resizeEx.startY + resizeEx.startH) ∧
    (resizeEx.dir.hasN = false → (resizeGeometry resizeEx 300 50).y = resizeEx.startY) ∧
    (resizeEx.dir.hasE = false → resizeEx.dir.hasW = false →
      (resizeGeometry resizeEx 300 50).width = resizeEx.startW) ∧
    (resizeEx.dir.hasS = false → resizeEx.dir.hasN = false →
      (resizeGeometry resizeEx 300 50).height = resizeEx.startH) ∧
    (∀ (g0 : Geom) (moves : List (ℚ × ℚ)) (p : ℚ × ℚ) (scale : ℚ),
      applyResizeMoves resizeEx scale g0 (moves ++ [p])
        = resizeGeometry resizeEx ((p.1 - resizeEx.startPointerX) / scale)
            ((p.2 - resizeEx.startPointerY) / scale)) :=
  resize_clamping_and_anchoring resizeEx 300 50
    (by norm_num [MIN_W, resizeEx]) (by norm_num [MIN_H, resizeEx])

/-- **C6** — Drag commutativity with scale: a drag move delivered at total
screen delta `(dx, dy)` from the gesture-start pointer emits the item at
world position `start + (dx/scale, dy/scale)`; and the position after any
sequence of move events equals the position computed from the last event
alone (one big move and ten small moves summing to the same delta land
identically), because every move recomputes
`next = startGeometry + (currentPointer - startPointer)/scale` from the
recorded start, not from incremental deltas. -/
theorem drag_commutes_with_scale (drag : DragState) (items : List WhiteboardItem)
    (item : WhiteboardItem) (scale dx dy : ℚ)
    (hfind : items.find? (fun i => i.id == drag.itemId) = some item) :
    handleDragPointerMove drag items scale
        { kind := EventKind.move, pointerId := drag.pointerId,
          clientX := drag.startPointerX + dx, clientY := drag.startPointerY + dy }
      = [WbEffect.updateItem
          { item with x := drag.startX + dx / scale, y := drag.startY + dy / scale }] ∧
    (∀ (g0 : ℚ × ℚ) (moves1 moves2 : List (ℚ × ℚ)) (p : ℚ × ℚ),
      applyDragMoves drag scale g0 (moves1 ++ [p])
        = applyDragMoves drag scale g0 (moves2 ++ [p]) ∧
      applyDragMoves drag scale g0 (moves1 ++ [p]) = dragPosition drag scale p.1 p.2) := by
  constructor
  · have h1 : drag.startPointerX + dx - drag.startPointerX = dx := by ring
    have h2 : drag.startPointerY + dy - drag.startPointerY = dy := by ring
    unfold handleDragPointerMove
    rw [if_neg (by simp), hfind]
    simp [dragPosition, h1, h2]
  · intro g0 moves1 moves2 p
    constructor <;> simp [applyDragMoves, List.foldl_append]

/-- **C6 witness**: dragging `itemEx` (start `(150, 150)`) by screen delta
`(10, 20)` at scale 2 emits the item at `(155, 160)` — a world delta of
`(5, 10)` — and the move-sequence independence at concrete data. -/
theorem drag_commutes_with_scale_witness :
    handleDragPointerMove dragEx [itemEx] 2
        { kind := EventKind.move, pointerId := dragEx.pointerId,
          clientX := dragEx.startPointerX + 10, clientY := dragEx.startPointerY + 20 }
      = [WbEffect.updateItem
          { itemEx with x := dragEx.startX + 10 / 2, y := dragEx.startY + 20 / 2 }] ∧
    (∀ (g0 : ℚ × ℚ) (moves1 moves2 : List (ℚ × ℚ)) (p : ℚ × ℚ),
      applyDragMoves dragEx 2 g0 (moves1 ++ [p])
        = applyDragMoves dragEx 2 g0 (moves2 ++ [p]) ∧
      applyDragMoves dragEx 2 g0 (moves1 ++ [p]) = dragPosition dragEx 2 p.1 p.2) :=
  drag_commutes_with_scale dragEx [itemEx] itemEx 2 10 20
    (List.find?_cons_of_pos _ (by simp [dragEx, itemEx]))

lemma getLast?_cons_getD (i : WhiteboardItem) (rest : List WhiteboardItem)
    (v : WhiteboardItem) :
    (i :: rest).getLast?.getD v = rest.getLast?.getD i := by
  cases rest with
  | nil => simp
  | cons j t =>
    rw [List.getLast?_cons_cons]
    cases h : (j :: t).getLast? with
    | none => simp at h
    | some w => simp

lemma enqueueAll_same_id (k : String) (l : List WhiteboardItem)
    (hk : ∀ i ∈ l, i.id = k) :
    ∀ v : WhiteboardItem,
      enqueueAll { pending := [(k, v)], timerActive := true } l
        = { pending := [(k, l.getLast?.getD v)], timerActive := true } := by
  induction l with
  | nil => intro v; simp [enqueueAll]
  | cons i rest ih =>
    intro v
    have hik : i.id = k := hk i (List.mem_cons_self _ _)
    have hrest : ∀ j ∈ rest, j.id = k := fun j hj => hk j (List.mem_cons_of_mem _ hj)
    have hstep : (scheduleWhiteboardSave { pending := [(k, v)], timerActive := true } i).1
        = { pending := [(k, i)], timerActive := true } := by
      simp [scheduleWhiteboardSave, mapSet, hik]
    calc enqueueAll { pending := [(k, v)], timerActive := true } (i :: rest)
        = enqueueAll
            (scheduleWhiteboardSave { pending := [(k, v)], timerActive := true } i).1
            rest := rfl
      _ = enqueueAll { pending := [(k, i)], timerActive := true } rest := by rw [hstep]
      _ = { pending := [(k, rest.getLast?.getD i)], timerActive := true } := ih hrest i
      _ = { pending := [(k, (i :: rest).getLast?.getD v)], timerActive := true } := by
          rw [getLast?_cons_getD]

/-- A second geometry for the same item id as `itemA`. -/
def pendEx1 : WhiteboardItem := { itemA with x := 5 }

/-- A third geometry for the same item id as `itemA`. -/
def pendEx2 : WhiteboardItem := { itemA with x := 9 }

/-- Three successive geometries of item `"a"` enqueued in one window. -/
def listEx : List WhiteboardItem := [itemA, pendEx1, pendEx2]

/-- **C7** — Persistence coalescing: enqueuing any nonempty sequence of
geometries of one item id within a debounce window leaves exactly one
pending slot, keyed by that id and holding only the last-enqueued
geometry (older pending geometry is overwritten, never queued as another
version); an enqueue starts the flush timer only when none is active; and
the flush drains every pending slot into exactly one batched write whose
payload for the id is that last geometry. -/
theorem persistence_coalescing (boardId k : String) (l : List WhiteboardItem)
    (last : WhiteboardItem) (hlast : l.getLast? = some last)
    (hk : ∀ i ∈ l, i.id = k) :
    (enqueueAll emptyQueue l).pending = [(k, last)] ∧
    (enqueueAll emptyQueue l).timerActive = true ∧
    (flushWhiteboardSaves (enqueueAll emptyQueue l) (some boardId)).2
      = [(boardId, [last])] ∧
    (flushWhiteboardSaves (enqueueAll emptyQueue l) (some boardId)).1.pending = [] ∧
    (flushWhiteboardSaves (enqueueAll emptyQueue l) (some boardId)).1.timerActive
      = false ∧
    (∀ (q : SaveQueue) (item : WhiteboardItem),
      (scheduleWhiteboardSave q item).2 = !q.timerActive ∧
      (scheduleWhiteboardSave q item).1.timerActive = true) := by
  obtain ⟨i, rest, rfl⟩ : ∃ i rest, l = i :: rest := by
    cases l with
    | nil => simp at hlast
    | cons i rest => exact ⟨i, rest, rfl⟩
  have hik : i.id = k := hk i (List.mem_cons_self _ _)
  have hrest : ∀ j ∈ rest, j.id = k := fun j hj => hk j (List.mem_cons_of_mem _ hj)
  have hfirst : (scheduleWhiteboardSave emptyQueue i).1
      = { pending := [(k, i)], timerActive := true } := by
    simp [scheduleWhiteboardSave, emptyQueue, mapSet, hik]
  have hq : enqueueAll emptyQueue (i :: rest)
      = { pending := [(k, last)], timerActive := true } := by
    have h1 : enqueueAll emptyQueue (i :: rest)
        = enqueueAll (scheduleWhiteboardSave emptyQueue i).1 rest := rfl
    rw [h1, hfirst, enqueueAll_same_id k rest hrest i]
    congr 1
    rw [← getLast?_cons_getD i rest i, hlast]
    rfl
  refine ⟨by rw [hq], by rw [hq], by rw [hq]; rfl, by rw [hq]; rfl, by rw [hq]; rfl, ?_⟩
  intro q item
  cases hT : q.timerActive <;> simp [scheduleWhiteboardSave, hT]

/-- **C7 witness**: three geometries of item `"a"` enqueued in one window
coalesce to a single pending slot holding the last one (`pendEx2`), and
the flush to board `"b1"` issues exactly one batched write `[pendEx2]`. -/
theorem persistence_coalescing_witness :
    (enqueueAll emptyQueue listEx).pending = [("a", pendEx2)] ∧
    (enqueueAll emptyQueue listEx).timerActive = true ∧
    (flushWhiteboardSaves (enqueueAll emptyQueue listEx) (some "b1")).2
      = [("b1", [pendEx2])] ∧
    (flushWhiteboardSaves (enqueueAll emptyQueue listEx) (some "b1")).1.pending = [] ∧
    (flushWhiteboardSaves (enqueueAll emptyQueue listEx) (some "b1")).1.timerActive
      = false ∧
    (∀ (q : SaveQueue) (item : WhiteboardItem),
      (scheduleWhiteboardSave q item).2 = !q.timerActive ∧
      (scheduleWhiteboardSave q item).1.timerActive = true) :=
  persistence_coalescing "b1" "a" listEx pendEx2 rfl
    (by
      intro i hi
      simp only [listEx, List.mem_cons, List.not_mem_nil, or_false] at hi
      rcases hi with rfl | rfl | rfl <;> rfl)

/-- **C9** — Flush with no active board discards pending writes: when the
flush runs with no active board id, it clears the timer handle, empties
the entire pending-write map and issues no store write — every geometry
update enqueued before that point is silently dropped, never persisted. -/
theorem flush_without_board_drops_pending (q : SaveQueue) :
    (flushWhiteboardSaves q none).1.pending = [] ∧
    (flushWhiteboardSaves q none).1.timerActive = false ∧
    (flushWhiteboardSaves q none).2 = [] :=
  ⟨rfl, rfl, rfl⟩

/-- **C10** — Gesture moves preserve non-geometry fields: every item
update emitted by a drag move leaves `id`, `noteId`, `z`, `width` and
`height` exactly those of the current item (only `x` and `y` change), and
every item update emitted by a resize move leaves `id`, `noteId` and `z`
exactly those of the current item (only `x`, `y`, `width`, `height`
change) — a move event never alters identity or stacking order. -/
theorem gesture_moves_preserve_identity (drag : DragState) (rs : ResizeState)
    (items : List WhiteboardItem) (scale : ℚ) (e : PointerEvent) :
    (∀ u : WhiteboardItem,
      WbEffect.updateItem u ∈ handleDragPointerMove drag items scale e →
      ∃ item ∈ items, item.id = drag.itemId ∧
        u.id = item.id ∧ u.noteId = item.noteId ∧ u.z = item.z ∧
        u.width = item.width ∧ u.height = item.height) ∧
    (∀ u : WhiteboardItem,
      WbEffect.updateItem u ∈ handleResizePointerMove rs items scale e →
      ∃ item ∈ items, item.id = rs.itemId ∧
        u.id = item.id ∧ u.noteId = item.noteId ∧ u.z = item.z) := by
  constructor
  · intro u hu
    unfold handleDragPointerMove at hu
    split at hu
    · simp at hu
    · cases hfind : items.find? (fun i => i.id == drag.itemId) with
      | none => rw [hfind] at hu; simp at hu
      | some item =>
        rw [hfind] at hu
        simp only [List.mem_singleton, WbEffect.updateItem.injEq] at hu
        subst hu
        refine ⟨item, List.mem_of_find?_eq_some hfind, ?_, rfl, rfl, rfl, rfl, rfl⟩
        simpa using List.find?_some hfind
  · intro u hu
    unfold handleResizePointerMove at hu
    split at hu
    · simp at hu
    · cases hfind : items.find? (fun i => i.id == rs.itemId) with
      | none => rw [hfind] at hu; simp at hu
      | some item =>
        rw [hfind] at hu
        simp only [List.mem_singleton, WbEffect.updateItem.injEq] at hu
        subst hu
        refine ⟨item, List.mem_of_find?_eq_some hfind, ?_, rfl, rfl, rfl⟩
        simpa using List.find?_some hfind

end WhiteboardNote
